import Mathlib

/-!
A shallow embedding of the activation and supervision engine of the rustysd
service manager, covering the parts of the source the claims are about:

* the notification parser and buffer loop of notification_handler.rs;
* the per-iteration error handling of the three multiplexer loops and the
  per-read stdout line emission of notification_handler.rs;
* the post-fork readiness wait of services/fork_parent.rs together with
  Service::get_start_timeout of services/services.rs;
* the start/stop paths of services/services.rs and the pid-table bookkeeping
  around them, with the reaper of the signal handler (not among the given
  sources) modelled from the spec;
* the dependency gate of units/activate_unit.rs and the dispatch performed by
  each activation job.

Buffers and wire data are byte strings modelled as lists of characters; a
function that can panic in the source returns an Option (none models the
panic). Machine pids are modelled as integers.
-/

namespace Rustysd

/-- Unit identifiers are opaque integers (InternalId and UnitId in the source). -/
abbrev InternalId := Nat

/-- ServiceType of a service unit configuration: Simple, Notify or Dbus. -/
inductive ServiceType
  | simple
  | notify
  | dbus
  deriving DecidableEq

/-- Modelled from the spec: the ServiceStatus enum is used by fork_parent.rs
as srvc.status, but its declaration is not among the given sources. The spec
lists the states NeverRan, Starting, Running and Stopped. -/
inductive ServiceStatus
  | neverRan
  | starting
  | running
  | stopped
  deriving DecidableEq

/-- Timeout value of a service configuration: a finite duration or Infinity.
An absent configuration entry is an Option none around this type. -/
inductive Timeout
  | duration (millis : Nat)
  | infinity
  deriving DecidableEq

/-- The slice of ServiceConfig the modelled functions consult (services.rs):
command lists for the helper phases, the service type and the timeouts. -/
structure ServiceConfig where
  srcv_type : ServiceType
  startpre : List String
  startpost : List String
  stop : List String
  stoppost : List String
  starttimeout : Option Timeout
  stoptimeout : Option Timeout
  generaltimeout : Option Timeout
  deriving DecidableEq

/-- The runtime state of a Service (services.rs struct Service) restricted to
the fields the modelled functions read or write. The status field is the one
referenced by fork_parent.rs; see ServiceStatus. -/
structure Service where
  pid : Option Int
  process_group : Option Int
  service_config : ServiceConfig
  signaled_ready : Bool
  status_msgs : List String
  notifications_buffer : List Char
  status : ServiceStatus
  deriving DecidableEq

/-- Embedding of msg.split(sep) (Rust str::split and slice::split): split at
every separator, keeping empty segments, so the result is never empty. -/
def split_on_char (sep : Char) : List Char → List (List Char)
  | [] => [[]]
  | c :: cs =>
    match split_on_char sep cs with
    | [] => [[]]
    | l :: ls => if c = sep then [] :: l :: ls else (c :: l) :: ls

/-- Embedding of handle_notification_message (notification_handler.rs
lines 220-239). The message is split on the equals sign; key STATUS pushes
split[1] onto status_msgs — an out-of-bounds index, hence a panic, when the
message contains no equals sign — key READY sets signaled_ready, and any
other key only logs a warning. none models the panic. -/
def handle_notification_message (msg : List Char) (srvc : Service) : Option Service :=
  match split_on_char '=' msg with
  | [] => none
  | key :: rest =>
    if key = "STATUS".toList then
      match rest with
      | [] => none
      | v :: _ => some { srvc with status_msgs := srvc.status_msgs ++ [String.mk v] }
    else if key = "READY".toList then
      some { srvc with signaled_ready := true }
    else
      some srvc

/-- Splitting a buffer at every newline: the first component lists the
complete lines in order, the second is the tail after the last newline.
This is the closed form of the while loop of handle_notifications_from_buffer
(see handle_notifications_from_buffer_loop below and the theorem relating
the two). -/
def extract_lines : List Char → List (List Char) × List Char
  | [] => ([], [])
  | c :: cs =>
    let r := extract_lines cs
    if c = '\n' then ([] :: r.1, r.2)
    else
      match r.1 with
      | [] => ([], c :: r.2)
      | l :: ls => ((c :: l) :: ls, r.2)

/-- Folding handle_notification_message over a list of complete lines, in
FIFO order, propagating a panic. -/
def process_lines : List (List Char) → Service → Option Service
  | [], srvc => some srvc
  | l :: ls, srvc =>
    match handle_notification_message l srvc with
    | none => none
    | some srvc2 => process_lines ls srvc2

/-- Embedding of handle_notifications_from_buffer (notification_handler.rs
lines 241-251): all complete lines of the buffer are consumed in FIFO order
and handed to handle_notification_message; the buffer keeps only the tail
after the last newline. -/
def handle_notifications_from_buffer (srvc : Service) : Option Service :=
  let r := extract_lines srvc.notifications_buffer
  process_lines r.1 { srvc with notifications_buffer := r.2 }

/-- Literal rendering of the source while loop: while the buffer contains a
newline, split at the first newline, keep the tail as the new buffer and hand
the line to handle_notification_message. The buffer is threaded as an
explicit argument equal to srvc.notifications_buffer. -/
def handle_notifications_from_buffer_loop (buf : List Char) (srvc : Service) : Option Service :=
  if h : buf.contains '\n' = true then
    let line := buf.takeWhile (fun c => c ≠ '\n')
    let rest := (buf.dropWhile (fun c => c ≠ '\n')).drop 1
    match handle_notification_message line { srvc with notifications_buffer := rest } with
    | none => none
    | some srvc2 => handle_notifications_from_buffer_loop rest srvc2
  else
    some srvc
termination_by buf.length
decreasing_by
  simp only [List.contains_iff_exists_mem_beq] at h
  obtain ⟨c, hc, hbeq⟩ := h
  have hmem : '\n' ∈ buf := by
    have : '\n' = c := by simpa using hbeq
    simpa [← this] using hc
  have hlen : ∀ (q : Char → Bool) (bs : List Char), (bs.dropWhile q).length ≤ bs.length := by
    intro q bs
    induction bs with
    | nil => simp
    | cons b bs ih =>
      by_cases hb : q b <;> simp [List.dropWhile_cons, hb] <;> omega
  have hne : buf.dropWhile (fun c => c ≠ '\n') ≠ [] := by
    intro hnil
    have := List.dropWhile_eq_nil_iff.mp hnil
    have := this '\n' hmem
    simp at this
  have hpos : 0 < (buf.dropWhile (fun c => c ≠ '\n')).length :=
    List.length_pos.mpr hne
  have hle := hlen (fun c => c ≠ '\n') buf
  simp only [List.length_drop]
  simp only [ne_eq] at hpos hle ⊢
  omega

/-- One datagram arriving for a service: the bytes are appended to
notifications_buffer and the buffer is parsed — the common step of
handle_all_streams (notification_handler.rs lines 60-68) and of the notify
wait of after_fork_parent (fork_parent.rs lines 31-34). -/
def feed (srvc : Service) (chunk : List Char) : Option Service :=
  handle_notifications_from_buffer
    { srvc with notifications_buffer := srvc.notifications_buffer ++ chunk }

/-- Embedding of Service::get_start_timeout (services.rs lines 157-174):
starttimeout takes precedence, then generaltimeout, else no timeout;
Infinity also means no timeout. The result is a duration in milliseconds. -/
def get_start_timeout (srvc : Service) : Option Nat :=
  match srvc.service_config.starttimeout with
  | some (.duration dur) => some dur
  | some .infinity => none
  | none =>
    match srvc.service_config.generaltimeout with
    | some (.duration dur) => some dur
    | some .infinity => none
    | none => none

/-- Outcome of the notify readiness wait of after_fork_parent: the loop broke
out with the final service state, the thread panicked inside the buffer
parser, or the loop consumed every datagram the child will ever send and is
blocked in recv with no way left to return. -/
inductive NotifyWaitOutcome
  | returned (srvc : Service)
  | panicked
  | blocked
  deriving DecidableEq

/-- Embedding of the ServiceType::Notify arm of after_fork_parent
(fork_parent.rs lines 29-41): loop, recv a datagram, append it to
notifications_buffer, run the buffer parser, and break only if the status is
then Running. The datagram list is the entire stream the child ever sends;
no timeout of any kind is consulted. -/
def after_fork_parent_notify_wait (srvc : Service) : List (List Char) → NotifyWaitOutcome
  | [] => .blocked
  | d :: ds =>
    match feed srvc d with
    | none => .panicked
    | some srvc2 =>
      if srvc2.status = ServiceStatus.running then .returned srvc2
      else after_fork_parent_notify_wait srvc2 ds

/-- Outcome of after_fork_parent as a whole. -/
inductive AfterForkOutcome
  | done (srvc : Service)
  | panicked
  | blockedForever
  deriving DecidableEq

/-- Embedding of after_fork_parent (fork_parent.rs lines 5-78): record the
pid and the process group (the negated pid), then wait for readiness
according to the service type. Simple sets status Running immediately; Notify
runs the datagram wait loop; Dbus waits on the bus and only logs, leaving the
service state unchanged. -/
def after_fork_parent (srvc : Service) (new_pid : Int) (datagrams : List (List Char)) :
    AfterForkOutcome :=
  let s := { srvc with pid := some new_pid, process_group := some (-new_pid) }
  match s.service_config.srcv_type with
  | .notify =>
    match after_fork_parent_notify_wait s datagrams with
    | .returned s2 => .done s2
    | .panicked => .panicked
    | .blocked => .blockedForever
  | .simple => .done { s with status := ServiceStatus.running }
  | .dbus => .done s

/-- The command strings Service::run_poststop (services.rs lines 368-380)
hands to run_all_cmds: the early Ok return is guarded by
startpost.is_empty — not stoppost.is_empty — and otherwise the stoppost
commands run. -/
def run_poststop_cmds (srvc : Service) : List String :=
  if srvc.service_config.startpost.isEmpty then [] else srvc.service_config.stoppost

/-- The command strings Service::run_stop_cmd (services.rs lines 289-301)
hands to run_all_cmds: nothing when stop is empty, else the stop commands. -/
def run_stop_cmds (srvc : Service) : List String :=
  if srvc.service_config.stop.isEmpty then [] else srvc.service_config.stop

/-- PidEntry (declared outside the given sources, reconstructed from its uses
in services.rs and the spec): Service, Helper, HelperExited, OneshotExited.
The termination payloads play no role in the claims. -/
inductive PidEntry
  | service (id : InternalId) (ty : ServiceType)
  | helper (id : InternalId) (label : String)
  | helperExited
  | oneshotExited
  deriving DecidableEq

/-- The pid table as an association list with distinct keys in the reachable
states; insert replaces any entry at the same key, as HashMap::insert does. -/
abbrev PidTable := List (Int × PidEntry)

/-- HashMap::insert on the pid table. -/
def insertPid (p : Int) (e : PidEntry) (t : PidTable) : PidTable :=
  (p, e) :: t.filter (fun kv => kv.1 ≠ p)

/-- HashMap::remove on the pid table. -/
def removePid (p : Int) (t : PidTable) : PidTable :=
  t.filter (fun kv => kv.1 ≠ p)

/-- HashMap::get on the pid table. -/
def lookupPid (p : Int) : PidTable → Option PidEntry
  | [] => none
  | kv :: rest => if kv.1 = p then some kv.2 else lookupPid p rest

/-- True when the entry is PidEntry::Service(id, _) for the given unit id. -/
def entry_is_service_for (id : InternalId) : PidEntry → Bool
  | .service uid _ => uid = id
  | _ => false

/-- True when the table holds some PidEntry::Service(id, _). -/
def containsService (id : InternalId) (t : PidTable) : Bool :=
  t.any (fun kv => entry_is_service_for id kv.2)

/-- How many PidEntry::Service(id, _) entries the table holds. -/
def serviceEntryCount (id : InternalId) (t : PidTable) : Nat :=
  t.countP (fun kv => entry_is_service_for id kv.2)

/-- Keys of the table are pairwise distinct — true of every reachable table
since insert replaces. -/
def nodupKeys : PidTable → Bool
  | [] => true
  | kv :: rest => rest.all (fun kv2 => kv2.1 ≠ kv.1) && nodupKeys rest

/-- One supervised service together with its unit id and the pid table, the
state the pid bookkeeping claims quantify over. -/
structure SupState where
  srvc : Service
  id : InternalId
  table : PidTable
  deriving DecidableEq

/-- The claimed equivalence: the service has a pid recorded exactly when the
pid table holds a PidEntry::Service for its unit id. -/
def pid_inv (st : SupState) : Bool :=
  st.srvc.pid.isSome == containsService st.id st.table

/-- Embedding of the pid bookkeeping of Service::start (services.rs lines
56-88 together with fork_parent.rs lines 12-13): fail if a pid or process
group is already recorded; otherwise the fork stores the new pid and process
group in the service and, under the same pid-table lock, inserts
PidEntry::Service(id, srcv_type). The helper phases and the readiness wait
do not touch the pid table entry and are elided. -/
def start_op (st : SupState) (new_pid : Int) : Except String SupState :=
  if st.srvc.pid.isSome then .error "Service has already a pid"
  else if st.srvc.process_group.isSome then .error "Service has already a pgid"
  else
    .ok
      { st with
        srvc := { st.srvc with pid := some new_pid, process_group := some (-new_pid) }
        table := insertPid new_pid (.service st.id st.srvc.service_config.srcv_type) st.table }

/-- Embedding of Service::stop (services.rs lines 113-146): run the stop
commands, kill the process group, clear pid and process_group, run the
poststop commands. The pid table is never touched on this path. -/
def stop_op (st : SupState) : SupState :=
  { st with srvc := { st.srvc with pid := none, process_group := none } }

/-- Modelled from the spec: the reaper of the signal handler is not among the
given sources. Per the spec, on reaping pid p it looks the pid up in the
table; a Helper entry is replaced by HelperExited, a Service entry is removed
and service-exit handling clears the pid and process group and sets the
status to Stopped; an absent pid is logged and ignored. -/
def reap_op (st : SupState) (p : Int) : SupState :=
  match lookupPid p st.table with
  | some (.service uid _) =>
    let st2 := { st with table := removePid p st.table }
    if uid = st.id then
      { st2 with
        srvc := { st2.srvc with pid := none, process_group := none,
                                status := ServiceStatus.stopped } }
    else st2
  | some (.helper _ _) => { st with table := insertPid p .helperExited st.table }
  | some .helperExited => st
  | some .oneshotExited => st
  | none => st

/-- Unit configuration: the name used in log and error messages. -/
structure UnitConfig where
  name : String
  deriving DecidableEq

/-- Install section of a unit: the after and before dependency edges. -/
structure Install where
  after : List InternalId
  before : List InternalId
  deriving DecidableEq

/-- The slice of a Unit the activator consults. -/
structure Unit where
  conf : UnitConfig
  install : Install
  deriving DecidableEq

/-- StartResult of activate_unit (activate_unit.rs lines 74-77). -/
inductive StartResult
  | started (next_services_ids : List InternalId)
  | ignored
  deriving DecidableEq

/-- Embedding of activate_unit (activate_unit.rs lines 79-166). When a
started_ids set is given, all_deps_ready folds conjunction of membership over
install.after and a failed check returns Ignored before anything is
activated. Unit::activate itself lives outside the given sources, so its
result is the parameter activate_res; on Ok the call returns
Started(install.before), on Err the formatted error. -/
def activate_unit (u : Unit) (started_ids : Option (List InternalId))
    (activate_res : Except String PUnit.{1}) : Except String StartResult :=
  let proceed :=
    match activate_res with
    | .ok _ => Except.ok (StartResult.started u.install.before)
    | .error e => Except.error ("Error while starting unit " ++ u.conf.name ++ ": " ++ e)
  match started_ids with
  | some ids =>
    if u.install.after.foldl (fun acc elem => acc && ids.contains elem) true then proceed
    else .ok .ignored
  | none => proceed

/-- What one worker job of activate_units_recursive does with the result of
activate_unit: the behaviors the match at activate_unit.rs lines 43-69 can
choose from, plus the log-and-continue behavior the spec describes for
errors. -/
inductive JobEffect
  | pushAndEnqueue (pushed : InternalId) (next : List InternalId)
  | ignoredNothing
  | logContinue (msg : String)
  | panicked (msg : String)
  deriving DecidableEq

/-- Embedding of the match in the worker closure of activate_units_recursive
(activate_unit.rs lines 35-69): Started pushes the id onto started_ids and
enqueues the successors, Ignored does nothing, and an Err makes the job
panic with the formatted message — it is not logged. -/
def activation_job_effect (id : InternalId) (res : Except String StartResult) : JobEffect :=
  match res with
  | .ok (.started next_services_ids) => .pushAndEnqueue id next_services_ids
  | .ok .ignored => .ignoredNothing
  | .error e => .panicked ("Error while activating unit " ++ e)

/-- The submission loop of activate_units_recursive (activate_unit.rs lines
19-71): one job is submitted to the pool for every id of ids_to_start, before
any result of any job is inspected. -/
def submitted_jobs (ids_to_start : List InternalId) : List InternalId :=
  ids_to_start.foldl (fun acc id => acc ++ [id]) []

/-- Outcome of one iteration of a multiplexer loop: the loop reached its next
iteration (warned records whether a warning was logged on the way), or the
thread panicked. -/
inductive MuxIterOutcome
  | continued (warned : Bool)
  | panicked
  deriving DecidableEq

/-- The reads performed on the ready fds of one iteration, in order: each
recv or read result is unwrapped (notification_handler.rs line 61 and line
121), so the first error panics the thread. Errors carry the errno. -/
def unwrap_recvs : List (Except Nat (List Char)) → MuxIterOutcome
  | [] => .continued false
  | .error _ :: _ => .panicked
  | .ok _ :: rest => unwrap_recvs rest

/-- Error-handling skeleton shared by handle_all_streams, handle_all_std_out
and handle_all_std_err (notification_handler.rs lines 44-78, 98-142 and
171-216): an Err from select is logged at warn and the loop continues; on Ok
every ready fd is read with the result unwrapped. -/
def mux_iteration (select_res : Except Nat PUnit)
    (recvs : List (Except Nat (List Char))) : MuxIterOutcome :=
  match select_res with
  | .error _ => .continued true
  | .ok _ => unwrap_recvs recvs

/-- Embedding of the per-read emission of handle_all_std_out
(notification_handler.rs lines 119-134): the bytes of this read are split on
newline, empty segments are skipped, and every other segment is emitted at
once as prefix, segment, newline. -/
def stdout_lines_for_read (name : String) (data : List Char) : List (List Char) :=
  ((split_on_char '\n' data).filter (fun l => l ≠ [])).map
    (fun line => ("[" ++ name ++ "] ").toList ++ line ++ ['\n'])

/-- The lines the stdout multiplexer emits for a service over a sequence of
reads: no state is carried from one read to the next. -/
def handle_std_out_reads (name : String) (reads : List (List Char)) : List (List Char) :=
  (reads.map (stdout_lines_for_read name)).flatten

/-! Concrete states used to evaluate the claims on explicit inputs. -/

/-- A Notify-type configuration with a one second start timeout configured. -/
def exampleNotifyConfig : ServiceConfig :=
  ⟨ServiceType.notify, [], [], [], [], some (Timeout.duration 1000), none, none⟩

/-- A freshly forked Notify service: status Starting, clean buffer, flag down. -/
def exampleStartingService : Service :=
  ⟨none, none, exampleNotifyConfig, false, [], [], ServiceStatus.starting⟩

/-- A configuration with a non-empty stoppost list and an empty startpost list. -/
def examplePoststopConfig : ServiceConfig :=
  ⟨ServiceType.simple, [], [], [], ["/bin/cleanup"], none, none, none⟩

/-- A service carrying examplePoststopConfig. -/
def examplePoststopService : Service :=
  ⟨none, none, examplePoststopConfig, false, [], [], ServiceStatus.running⟩

/-- A running supervised service with pid 5 recorded in the pid table. -/
def exampleRunningSup : SupState :=
  ⟨⟨some 5, some (-5), exampleNotifyConfig, true, [], [], ServiceStatus.running⟩, 0,
    [(5, PidEntry.service 0 ServiceType.notify)]⟩

/-- A supervised service that has never been started: no pid, empty table. -/
def exampleFreshSup : SupState :=
  ⟨⟨none, none, exampleNotifyConfig, false, [], [], ServiceStatus.starting⟩, 0, []⟩

/-- The supervised state start_op produces from exampleFreshSup and pid 5. -/
def exampleStartedSup : SupState :=
  ⟨⟨some 5, some (-5), exampleNotifyConfig, false, [], [], ServiceStatus.starting⟩, 0,
    [(5, PidEntry.service 0 ServiceType.notify)]⟩

/-- A unit with one after predecessor (id 1) and one before successor (id 2). -/
def exampleGatedUnit : Unit := ⟨⟨"gated"⟩, ⟨[1], [2]⟩⟩

/-- The state feed produces from exampleStartingService on the chunk
STATUS=a newline RE: one status message and the partial tail RE buffered. -/
def exampleParsedService : Service :=
  ⟨none, none, exampleNotifyConfig, false, ["a"], "RE".toList, ServiceStatus.starting⟩

/-! Shared lemmas about the notification parser and the buffer loop. -/

theorem handle_notification_message_set_buffer (msg : List Char) (srvc : Service)
    (b : List Char) :
    handle_notification_message msg { srvc with notifications_buffer := b } =
      (handle_notification_message msg srvc).map
        (fun u => { u with notifications_buffer := b }) := by
  unfold handle_notification_message
  rcases hsp : split_on_char '=' msg with _ | ⟨key, rest⟩
  · rfl
  · dsimp only
    by_cases hs : key = "STATUS".toList
    · rw [if_pos hs, if_pos hs]
      cases rest <;> rfl
    · rw [if_neg hs, if_neg hs]
      by_cases hr : key = "READY".toList
      · rw [if_pos hr, if_pos hr]
        rfl
      · rw [if_neg hr, if_neg hr]
        rfl

theorem handle_notification_message_status (msg : List Char) (srvc srvc2 : Service)
    (h : handle_notification_message msg srvc = some srvc2) :
    srvc2.status = srvc.status ∧ srvc2.notifications_buffer = srvc.notifications_buffer := by
  unfold handle_notification_message at h
  rcases hsp : split_on_char '=' msg with _ | ⟨key, rest⟩ <;> rw [hsp] at h <;> dsimp only at h
  · exact absurd h (by simp)
  · by_cases hs : key = "STATUS".toList
    · rw [if_pos hs] at h
      cases rest with
      | nil => exact absurd h (by simp)
      | cons v vs =>
        cases h
        exact ⟨rfl, rfl⟩
    · rw [if_neg hs] at h
      by_cases hr : key = "READY".toList
      · rw [if_pos hr] at h
        cases h
        exact ⟨rfl, rfl⟩
      · rw [if_neg hr] at h
        cases h
        exact ⟨rfl, rfl⟩

theorem process_lines_set_buffer (ls : List (List Char)) (srvc : Service) (b : List Char) :
    process_lines ls { srvc with notifications_buffer := b } =
      (process_lines ls srvc).map (fun u => { u with notifications_buffer := b }) := by
  induction ls generalizing srvc with
  | nil => rfl
  | cons l ls ih =>
    simp only [process_lines, handle_notification_message_set_buffer]
    cases h : handle_notification_message l srvc with
    | none => rfl
    | some u => simpa using ih u

theorem process_lines_status (ls : List (List Char)) (srvc srvc2 : Service)
    (h : process_lines ls srvc = some srvc2) :
    srvc2.status = srvc.status ∧ srvc2.notifications_buffer = srvc.notifications_buffer := by
  induction ls generalizing srvc with
  | nil =>
    simp only [process_lines, Option.some.injEq] at h
    cases h
    exact ⟨rfl, rfl⟩
  | cons l ls ih =>
    simp only [process_lines] at h
    cases hh : handle_notification_message l srvc with
    | none => rw [hh] at h; simp at h
    | some u =>
      rw [hh] at h
      have h1 := handle_notification_message_status l srvc u hh
      have h2 := ih u h
      exact ⟨h2.1.trans h1.1, h2.2.trans h1.2⟩

theorem process_lines_append (l1 l2 : List (List Char)) (srvc : Service) :
    process_lines (l1 ++ l2) srvc = (process_lines l1 srvc).bind (process_lines l2) := by
  induction l1 generalizing srvc with
  | nil => rfl
  | cons l ls ih =>
    simp only [List.cons_append, process_lines]
    cases handle_notification_message l srvc with
    | none => rfl
    | some u => exact ih u

theorem extract_lines_rest_no_newline (buf : List Char) :
    ((extract_lines buf).2).contains '\n' = false := by
  induction buf with
  | nil => rfl
  | cons c cs ih =>
    simp only [extract_lines]
    split
    · exact ih
    · rename_i hc
      cases hr : (extract_lines cs).1 with
      | nil =>
        simp only [List.contains_cons, Bool.or_eq_false_iff]
        constructor
        · simpa using fun h => hc h.symm
        · exact ih
      | cons l ls => exact ih

theorem extract_lines_of_not_contains (buf : List Char) (h : buf.contains '\n' = false) :
    extract_lines buf = ([], buf) := by
  induction buf with
  | nil => rfl
  | cons c cs ih =>
    simp only [List.contains_cons, Bool.or_eq_false_iff] at h
    have hc : ¬ c = '\n' := by
      intro hh
      simp [hh] at h
    have := ih h.2
    simp [extract_lines, hc, this]

theorem extract_lines_of_contains (buf : List Char) (h : buf.contains '\n' = true) :
    extract_lines buf =
      ((buf.takeWhile (fun c => c ≠ '\n')) ::
          (extract_lines ((buf.dropWhile (fun c => c ≠ '\n')).drop 1)).1,
        (extract_lines ((buf.dropWhile (fun c => c ≠ '\n')).drop 1)).2) := by
  induction buf with
  | nil => simp at h
  | cons c cs ih =>
    by_cases hc : c = '\n'
    · subst hc
      simp [extract_lines, List.takeWhile_cons, List.dropWhile_cons]
    · have hcs : cs.contains '\n' = true := by
        simp only [List.contains_cons] at h
        rcases Bool.or_eq_true_iff.mp h with h1 | h1
        · exact absurd (Eq.symm (by simpa using h1)) hc
        · exact h1
      have := ih hcs
      simp only [extract_lines, this, if_neg hc]
      simp [List.takeWhile_cons, List.dropWhile_cons, hc]

theorem extract_lines_append (a b : List Char) :
    extract_lines (a ++ b) =
      ((extract_lines a).1 ++ (extract_lines ((extract_lines a).2 ++ b)).1,
        (extract_lines ((extract_lines a).2 ++ b)).2) := by
  induction a with
  | nil => simp [extract_lines]
  | cons c cs ih =>
    by_cases hc : c = '\n'
    · subst hc
      simp [extract_lines, ih]
    · cases hr : (extract_lines cs).1 with
      | nil =>
        have hlhs : extract_lines (c :: cs ++ b) =
            (match (extract_lines (cs ++ b)).1 with
              | [] => ([], c :: (extract_lines (cs ++ b)).2)
              | l :: ls => ((c :: l) :: ls, (extract_lines (cs ++ b)).2)) := by
          simp [extract_lines, hc]
        have hrhs : extract_lines (c :: cs) = ([], c :: (extract_lines cs).2) := by
          simp [extract_lines, hc, hr]
        rw [hlhs, ih, hr, hrhs]
        simp only [List.nil_append, List.cons_append]
        have : extract_lines (c :: ((extract_lines cs).2 ++ b)) =
            (match (extract_lines ((extract_lines cs).2 ++ b)).1 with
              | [] => ([], c :: (extract_lines ((extract_lines cs).2 ++ b)).2)
              | l :: ls => ((c :: l) :: ls, (extract_lines ((extract_lines cs).2 ++ b)).2)) := by
          simp [extract_lines, hc]
        rw [this]
      | cons l ls =>
        have hlhs : extract_lines (c :: cs ++ b) =
            (match (extract_lines (cs ++ b)).1 with
              | [] => ([], c :: (extract_lines (cs ++ b)).2)
              | l :: ls => ((c :: l) :: ls, (extract_lines (cs ++ b)).2)) := by
          simp [extract_lines, hc]
        have hrhs : extract_lines (c :: cs) = ((c :: l) :: ls, (extract_lines cs).2) := by
          simp [extract_lines, hc, hr]
        rw [hlhs, ih, hr, hrhs]
        simp

theorem dropWhile_drop_length_lt (buf : List Char) (h : buf.contains '\n' = true) :
    ((buf.dropWhile (fun c => c ≠ '\n')).drop 1).length < buf.length := by
  simp only [List.contains_iff_exists_mem_beq] at h
  obtain ⟨c, hc, hbeq⟩ := h
  have hmem : '\n' ∈ buf := by
    have : '\n' = c := by simpa using hbeq
    simpa [← this] using hc
  have hlen : ∀ (q : Char → Bool) (bs : List Char), (bs.dropWhile q).length ≤ bs.length := by
    intro q bs
    induction bs with
    | nil => simp
    | cons b bs ih =>
      by_cases hb : q b <;> simp [List.dropWhile_cons, hb] <;> omega
  have hne : buf.dropWhile (fun c => c ≠ '\n') ≠ [] := by
    intro hnil
    have := List.dropWhile_eq_nil_iff.mp hnil
    have := this '\n' hmem
    simp at this
  have hpos : 0 < (buf.dropWhile (fun c => c ≠ '\n')).length :=
    List.length_pos.mpr hne
  have hle := hlen (fun c => c ≠ '\n') buf
  simp only [List.length_drop]
  simp only [ne_eq] at hpos hle ⊢
  omega

theorem loop_eq_aux :
    ∀ (n : Nat) (buf : List Char) (srvc : Service),
      buf.length ≤ n → srvc.notifications_buffer = buf →
      handle_notifications_from_buffer_loop buf srvc =
        handle_notifications_from_buffer srvc := by
  intro n
  induction n with
  | zero =>
    intro buf srvc hlen hbuf
    have hnil : buf = [] := List.length_eq_zero.mp (Nat.le_zero.mp hlen)
    subst hnil
    rw [handle_notifications_from_buffer_loop, dif_neg (by simp)]
    rw [handle_notifications_from_buffer, hbuf]
    show some srvc =
      process_lines (extract_lines []).1
        { srvc with notifications_buffer := (extract_lines []).2 }
    rw [show extract_lines ([] : List Char) = ([], []) from rfl]
    show some srvc = some { srvc with notifications_buffer := [] }
    rw [← hbuf]
  | succ n ih =>
    intro buf srvc hlen hbuf
    by_cases hcont : buf.contains '\n' = true
    · rw [handle_notifications_from_buffer_loop, dif_pos hcont]
      dsimp only
      rw [handle_notifications_from_buffer, hbuf, extract_lines_of_contains buf hcont]
      dsimp only
      rw [process_lines]
      rw [handle_notification_message_set_buffer (buf.takeWhile (fun c => c ≠ '\n')) srvc
          ((buf.dropWhile (fun c => c ≠ '\n')).drop 1),
        handle_notification_message_set_buffer (buf.takeWhile (fun c => c ≠ '\n')) srvc
          ((extract_lines ((buf.dropWhile (fun c => c ≠ '\n')).drop 1)).2)]
      cases hmsg : handle_notification_message (buf.takeWhile (fun c => c ≠ '\n')) srvc with
      | none => rfl
      | some u =>
        show handle_notifications_from_buffer_loop
            ((buf.dropWhile (fun c => c ≠ '\n')).drop 1)
            { u with notifications_buffer := (buf.dropWhile (fun c => c ≠ '\n')).drop 1 } =
          process_lines (extract_lines ((buf.dropWhile (fun c => c ≠ '\n')).drop 1)).1
            { u with notifications_buffer :=
                (extract_lines ((buf.dropWhile (fun c => c ≠ '\n')).drop 1)).2 }
        have hrest : ((buf.dropWhile (fun c => c ≠ '\n')).drop 1).length ≤ n := by
          have := dropWhile_drop_length_lt buf hcont
          omega
        rw [ih ((buf.dropWhile (fun c => c ≠ '\n')).drop 1) _ hrest rfl]
        rw [handle_notifications_from_buffer]
    · rw [handle_notifications_from_buffer_loop, dif_neg hcont]
      rw [handle_notifications_from_buffer, hbuf]
      rw [extract_lines_of_not_contains buf (by simpa using hcont)]
      show some srvc = some { srvc with notifications_buffer := buf }
      rw [← hbuf]

/-- The literal while loop and the closed-form buffer parser agree: the
fidelity theorem tying handle_notifications_from_buffer to the source loop. -/
theorem handle_notifications_from_buffer_loop_spec (srvc : Service) :
    handle_notifications_from_buffer_loop srvc.notifications_buffer srvc =
      handle_notifications_from_buffer srvc :=
  loop_eq_aux srvc.notifications_buffer.length srvc.notifications_buffer srvc le_rfl rfl

theorem handle_notifications_from_buffer_no_newline (srvc srvc2 : Service)
    (h : handle_notifications_from_buffer srvc = some srvc2) :
    srvc2.notifications_buffer.contains '\n' = false := by
  unfold handle_notifications_from_buffer at h
  have := (process_lines_status _ _ _ h).2
  rw [this]
  exact extract_lines_rest_no_newline _

theorem feed_no_newline (srvc srvc2 : Service) (c : List Char)
    (h : feed srvc c = some srvc2) :
    srvc2.notifications_buffer.contains '\n' = false :=
  handle_notifications_from_buffer_no_newline _ _ h

theorem feed_status (srvc srvc2 : Service) (c : List Char) (h : feed srvc c = some srvc2) :
    srvc2.status = srvc.status := by
  unfold feed handle_notifications_from_buffer at h
  exact (process_lines_status _ _ _ h).1

theorem feed_as_map (s : Service) (c : List Char) :
    feed s c =
      (process_lines (extract_lines (s.notifications_buffer ++ c)).1 s).map
        (fun u => { u with
          notifications_buffer := (extract_lines (s.notifications_buffer ++ c)).2 }) := by
  have h0 : feed s c =
      process_lines (extract_lines (s.notifications_buffer ++ c)).1
        { s with notifications_buffer := (extract_lines (s.notifications_buffer ++ c)).2 } := rfl
  rw [h0, process_lines_set_buffer]

theorem feed_append (s : Service) (c1 c2 : List Char) :
    (feed s c1).bind (fun t => feed t c2) = feed s (c1 ++ c2) := by
  rw [feed_as_map s c1, feed_as_map s (c1 ++ c2)]
  rw [← List.append_assoc]
  rw [extract_lines_append (s.notifications_buffer ++ c1) c2]
  dsimp only
  rw [process_lines_append]
  cases hp : process_lines (extract_lines (s.notifications_buffer ++ c1)).1 s with
  | none => rfl
  | some u =>
    show feed { u with notifications_buffer := (extract_lines (s.notifications_buffer ++ c1)).2 } c2 =
      (process_lines (extract_lines ((extract_lines (s.notifications_buffer ++ c1)).2 ++ c2)).1 u).map
        (fun v => { v with notifications_buffer :=
          (extract_lines ((extract_lines (s.notifications_buffer ++ c1)).2 ++ c2)).2 })
    rw [feed_as_map]
    dsimp only
    rw [process_lines_set_buffer]
    cases process_lines
        (extract_lines ((extract_lines (s.notifications_buffer ++ c1)).2 ++ c2)).1 u <;> rfl

theorem feed_foldlM (t : Service) (c : List Char) (cs : List (List Char)) :
    List.foldlM feed t (c :: cs) = feed t (c :: cs).flatten := by
  induction cs generalizing t c with
  | nil => simp [List.foldlM]
  | cons c2 cs ih =>
    have hstep : List.foldlM feed t (c :: c2 :: cs) =
        (feed t c).bind (fun u => List.foldlM feed u (c2 :: cs)) := by
      simp [List.foldlM_cons]
    rw [hstep]
    have hcong : (feed t c).bind (fun u => List.foldlM feed u (c2 :: cs)) =
        (feed t c).bind (fun u => feed u ((c2 :: cs).flatten)) := by
      cases feed t c with
      | none => rfl
      | some u => simpa using ih u c2
    rw [hcong, feed_append]
    simp

theorem unwrap_recvs_first_error (pre : List (List Char)) (e : Nat)
    (post : List (Except Nat (List Char))) :
    unwrap_recvs (pre.map Except.ok ++ Except.error e :: post) = .panicked := by
  induction pre with
  | nil => rfl
  | cons p ps ih => simpa [unwrap_recvs] using ih

theorem foldl_append_singleton (ids : List InternalId) :
    ∀ (acc : List InternalId), ids.foldl (fun a i => a ++ [i]) acc = acc ++ ids := by
  induction ids with
  | nil => simp
  | cons i is ih =>
    intro acc
    rw [List.foldl_cons, ih]
    simp

theorem foldl_and_contains (ids : List InternalId) :
    ∀ (l : List InternalId) (b : Bool),
      (l.foldl (fun acc elem => acc && ids.contains elem) b = true) ↔
        (b = true ∧ ∀ a ∈ l, a ∈ ids) := by
  intro l
  induction l with
  | nil => simp
  | cons x xs ih =>
    intro b
    rw [List.foldl_cons, ih]
    simp only [Bool.and_eq_true, List.mem_cons]
    constructor
    · rintro ⟨⟨hb, hx⟩, hxs⟩
      refine ⟨hb, ?_⟩
      intro a ha
      rcases ha with rfl | ha
      · simpa using hx
      · exact hxs a ha
    · rintro ⟨hb, hall⟩
      refine ⟨⟨hb, ?_⟩, ?_⟩
      · simpa using hall x (Or.inl rfl)
      · intro a ha
        exact hall a (Or.inr ha)

theorem notify_wait_never_returns_aux (dgs : List (List Char)) :
    ∀ (srvc : Service), srvc.status ≠ ServiceStatus.running →
      ∀ r, after_fork_parent_notify_wait srvc dgs ≠ NotifyWaitOutcome.returned r := by
  induction dgs with
  | nil =>
    intro srvc hst r
    simp [after_fork_parent_notify_wait]
  | cons d ds ih =>
    intro srvc hst r
    simp only [after_fork_parent_notify_wait]
    cases hf : feed srvc d with
    | none => simp
    | some s2 =>
      have h2 : s2.status ≠ ServiceStatus.running := by
        rw [feed_status srvc s2 d hf]
        exact hst
      show (if s2.status = ServiceStatus.running then NotifyWaitOutcome.returned s2
          else after_fork_parent_notify_wait s2 ds) ≠ NotifyWaitOutcome.returned r
      rw [if_neg h2]
      exact ih s2 h2 r

theorem containsService_eq_false_of_count_zero (id : InternalId) (t : PidTable)
    (h : serviceEntryCount id t = 0) : containsService id t = false := by
  induction t with
  | nil => rfl
  | cons kv rest ih =>
    unfold serviceEntryCount at h
    rw [List.countP_cons] at h
    by_cases hk : entry_is_service_for id kv.2 = true
    · simp [hk] at h
    · have hrest : serviceEntryCount id rest = 0 := by
        unfold serviceEntryCount
        simp only [hk, if_neg] at h
        simpa using h
      have := ih hrest
      unfold containsService at this ⊢
      simp [List.any_cons, hk, this]

theorem count_pos_of_lookup_service (t : PidTable) (p : Int) (id : InternalId)
    (ty : ServiceType) (h : lookupPid p t = some (.service id ty)) :
    1 ≤ serviceEntryCount id t := by
  induction t with
  | nil => simp [lookupPid] at h
  | cons kv rest ih =>
    unfold lookupPid at h
    unfold serviceEntryCount
    rw [List.countP_cons]
    by_cases hk : kv.1 = p
    · rw [if_pos hk] at h
      have hkv : kv.2 = PidEntry.service id ty := Option.some.inj h
      simp [hkv, entry_is_service_for]
    · rw [if_neg hk] at h
      have := ih h
      unfold serviceEntryCount at this
      omega

theorem filter_ne_key_eq_self (rest : PidTable) (k : Int)
    (hall : rest.all (fun kv2 => kv2.1 ≠ k) = true) :
    rest.filter (fun kv2 => kv2.1 ≠ k) = rest := by
  apply List.filter_eq_self.mpr
  intro a ha
  exact List.all_eq_true.mp hall a ha

theorem contains_removePid_eq_false (t : PidTable) (p : Int) (id : InternalId)
    (ty : ServiceType) (hnd : nodupKeys t = true)
    (hl : lookupPid p t = some (.service id ty))
    (hcnt : serviceEntryCount id t ≤ 1) :
    containsService id (removePid p t) = false := by
  induction t with
  | nil => rfl
  | cons kv rest ih =>
    unfold nodupKeys at hnd
    rw [Bool.and_eq_true] at hnd
    unfold lookupPid at hl
    unfold serviceEntryCount at hcnt
    rw [List.countP_cons] at hcnt
    by_cases hk : kv.1 = p
    · rw [if_pos hk] at hl
      subst hk
      have hkv : kv.2 = PidEntry.service id ty := Option.some.inj hl
      have hsv : entry_is_service_for id kv.2 = true := by
        simp [hkv, entry_is_service_for]
      have hrest0 : serviceEntryCount id rest = 0 := by
        unfold serviceEntryCount
        rw [if_pos hsv] at hcnt
        omega
      unfold removePid
      rw [List.filter_cons_of_neg (by simp)]
      rw [filter_ne_key_eq_self rest kv.1 hnd.1]
      exact containsService_eq_false_of_count_zero id rest hrest0
    · rw [if_neg hk] at hl
      have hknot : entry_is_service_for id kv.2 = false := by
        by_contra hcon
        rw [Bool.not_eq_false] at hcon
        have h1 := count_pos_of_lookup_service rest p id ty hl
        unfold serviceEntryCount at h1
        rw [if_pos hcon] at hcnt
        omega
      have hcnt2 : serviceEntryCount id rest ≤ 1 := by
        unfold serviceEntryCount
        rw [hknot] at hcnt
        simp only [Bool.false_eq_true, if_false] at hcnt
        omega
      have hrec := ih hnd.2 hl hcnt2
      unfold removePid at hrec ⊢
      rw [List.filter_cons_of_pos (by simpa using hk)]
      unfold containsService at hrec ⊢
      rw [List.any_cons, hknot, hrec]
      rfl

theorem contains_removePid_eq_of_other (t : PidTable) (p : Int) (id uid : InternalId)
    (ty : ServiceType) (hnd : nodupKeys t = true)
    (hl : lookupPid p t = some (.service uid ty)) (hne : uid ≠ id) :
    containsService id (removePid p t) = containsService id t := by
  induction t with
  | nil => rfl
  | cons kv rest ih =>
    unfold nodupKeys at hnd
    rw [Bool.and_eq_true] at hnd
    unfold lookupPid at hl
    by_cases hk : kv.1 = p
    · rw [if_pos hk] at hl
      subst hk
      have hkv : kv.2 = PidEntry.service uid ty := Option.some.inj hl
      have hknot : entry_is_service_for id kv.2 = false := by
        simp [hkv, entry_is_service_for, hne]
      unfold removePid
      rw [List.filter_cons_of_neg (by simp)]
      rw [filter_ne_key_eq_self rest kv.1 hnd.1]
      unfold containsService
      rw [List.any_cons, hknot]
      rfl
    · rw [if_neg hk] at hl
      have hrec := ih hnd.2 hl
      unfold removePid at hrec ⊢
      rw [List.filter_cons_of_pos (by simpa using hk)]
      unfold containsService at hrec ⊢
      rw [List.any_cons, List.any_cons, hrec]

theorem contains_insert_helperExited (t : PidTable) (p : Int) (id : InternalId)
    (hns : ∀ ty, lookupPid p t ≠ some (.service id ty)) (hnd : nodupKeys t = true) :
    containsService id (insertPid p .helperExited t) = containsService id t := by
  unfold insertPid containsService
  rw [List.any_cons]
  have hfil : ∀ (u : PidTable), nodupKeys u = true →
      (∀ ty, lookupPid p u ≠ some (.service id ty)) →
      (u.filter (fun kv => kv.1 ≠ p)).any (fun kv => entry_is_service_for id kv.2) =
        u.any (fun kv => entry_is_service_for id kv.2) := by
    intro u
    induction u with
    | nil => intro _ _; rfl
    | cons kv rest ih =>
      intro hnd2 hl2
      unfold nodupKeys at hnd2
      rw [Bool.and_eq_true] at hnd2
      unfold lookupPid at hl2
      by_cases hk : kv.1 = p
      · have hkne : entry_is_service_for id kv.2 = false := by
          by_contra hcon
          rw [Bool.not_eq_false] at hcon
          cases hkv : kv.2 with
          | service uid ty =>
            have huid : uid = id := by
              have h2 := hcon
              rw [hkv] at h2
              simpa [entry_is_service_for] using h2
            subst huid
            exact (hl2 ty) (by rw [if_pos hk, hkv])
          | helper a b => rw [hkv] at hcon; simp [entry_is_service_for] at hcon
          | helperExited => rw [hkv] at hcon; simp [entry_is_service_for] at hcon
          | oneshotExited => rw [hkv] at hcon; simp [entry_is_service_for] at hcon
        subst hk
        rw [List.filter_cons_of_neg (by simp)]
        rw [filter_ne_key_eq_self rest kv.1 hnd2.1]
        rw [List.any_cons, hkne]
        rfl
      · rw [List.filter_cons_of_pos (by simpa using hk), List.any_cons, List.any_cons]
        rw [ih hnd2.2 (by rw [if_neg hk] at hl2; exact hl2)]
  rw [hfil t hnd hns]
  simp [entry_is_service_for]

theorem start_op_establishes_pid_inv (st : SupState) (new_pid : Int) (st2 : SupState)
    (h : start_op st new_pid = Except.ok st2) : pid_inv st2 = true := by
  unfold start_op at h
  by_cases hp : st.srvc.pid.isSome
  · rw [if_pos hp] at h
    exact absurd h (by simp)
  · rw [if_neg hp] at h
    by_cases hg : st.srvc.process_group.isSome
    · rw [if_pos hg] at h
      exact absurd h (by simp)
    · rw [if_neg hg] at h
      have hst : st2 = { st with
          srvc := { st.srvc with pid := some new_pid, process_group := some (-new_pid) }
          table := insertPid new_pid (.service st.id st.srvc.service_config.srcv_type)
            st.table } := (Except.ok.inj h).symm
      subst hst
      simp [pid_inv, insertPid, containsService, entry_is_service_for]

theorem reap_op_preserves_pid_inv (st : SupState) (p : Int)
    (hinv : pid_inv st = true) (hnd : nodupKeys st.table = true)
    (hcnt : serviceEntryCount st.id st.table ≤ 1) :
    pid_inv (reap_op st p) = true := by
  unfold reap_op
  cases hl : lookupPid p st.table with
  | none => exact hinv
  | some e =>
    cases e with
    | service uid ty =>
      show pid_inv
          (if uid = st.id then
            ⟨{ st.srvc with
                pid := none, process_group := none, status := ServiceStatus.stopped },
              st.id, removePid p st.table⟩
          else ⟨st.srvc, st.id, removePid p st.table⟩) = true
      by_cases hu : uid = st.id
      · subst hu
        rw [if_pos rfl]
        have hrem := contains_removePid_eq_false st.table p st.id ty hnd hl hcnt
        simp [pid_inv, hrem]
      · rw [if_neg hu]
        simp only [pid_inv, beq_iff_eq] at hinv ⊢
        rw [contains_removePid_eq_of_other st.table p st.id uid ty hnd hl hu]
        exact hinv
    | helper hid lbl =>
      show pid_inv ⟨st.srvc, st.id, insertPid p PidEntry.helperExited st.table⟩ = true
      simp only [pid_inv, beq_iff_eq] at hinv ⊢
      rw [contains_insert_helperExited st.table p st.id (fun ty => by rw [hl]; simp) hnd]
      exact hinv
    | helperExited => exact hinv
    | oneshotExited => exact hinv

/-! The claims. -/

/-- Claim C1: the claim states that a processed READY=1 line sets
signaled_ready and, when the status was Starting, transitions it to Running.
The parser sets the flag but never writes the status: at the failing input, a
READY=1 line processed for a service in Starting, the resulting state still
has status Starting, so the transition the claim (and the break condition of
the fork_parent wait loop) relies on never happens. -/
theorem c1_ready_sets_flag_but_status_stays_starting :
    handle_notification_message ("READY=1".toList) exampleStartingService =
      some { exampleStartingService with signaled_ready := true } ∧
    ({ exampleStartingService with signaled_ready := true }).status =
      ServiceStatus.starting ∧
    exampleStartingService.status = ServiceStatus.starting := by
  refine ⟨by decide, rfl, rfl⟩

/-- Claim C2 counterexample: a Notify service in Starting with starttimeout
configured as one second receives the complete line READY=1, yet
after_fork_parent neither returns upon it nor ever times out — the wait
blocks forever, refuting both halves of the claim at this concrete input. -/
theorem c2_counterexample_wait_blocks_despite_ready_and_timeout :
    after_fork_parent exampleStartingService 5 ["READY=1\n".toList] =
      AfterForkOutcome.blockedForever ∧
    get_start_timeout exampleStartingService = some 1000 := by
  refine ⟨by decide, rfl⟩

/-- Claim C2 amended: the post-fork Notify wait exits only through the check
status == Running after a processed datagram; the parser never changes the
status and no timeout is consulted, so a wait beginning in any status other
than Running never returns, whatever datagrams arrive and whatever start
timeout is configured. -/
theorem c2_notify_wait_never_returns (srvc : Service) (dgs : List (List Char))
    (h : srvc.status ≠ ServiceStatus.running) (r : Service) :
    after_fork_parent_notify_wait srvc dgs ≠ NotifyWaitOutcome.returned r :=
  notify_wait_never_returns_aux dgs srvc h r

theorem c2_witness :
    after_fork_parent_notify_wait exampleStartingService ["READY=1\n".toList] ≠
      NotifyWaitOutcome.returned exampleStartingService :=
  c2_notify_wait_never_returns exampleStartingService ["READY=1\n".toList] (by decide)
    exampleStartingService

/-- Claim C3 counterexample: when activate_unit returns an error, the worker
job of activate_units_recursive panics with the formatted message; it does
not log and continue as the claim states. -/
theorem c3_counterexample_error_panics_not_logged :
    activation_job_effect 0 (Except.error "boom") =
      JobEffect.panicked "Error while activating unit boom" ∧
    activation_job_effect 0 (Except.error "boom") ≠
      JobEffect.logContinue "Error while activating unit boom" := by
  refine ⟨rfl, by decide⟩

/-- Claim C3 amended: an activation error makes the worker job panic with the
formatted message (it is not logged, and the successors of the failing unit
are not enqueued), while the submission loop has already submitted one job
for every sibling id of ids_to_start independently of any outcome, so a
panicking job does not retract sibling submissions. -/
theorem c3_error_panics_siblings_submitted :
    (∀ (id : InternalId) (e : String),
      activation_job_effect id (Except.error e) =
        JobEffect.panicked ("Error while activating unit " ++ e)) ∧
    (∀ ids : List InternalId, submitted_jobs ids = ids) := by
  constructor
  · intro id e
    rfl
  · intro ids
    unfold submitted_jobs
    simpa using foldl_append_singleton ids []

/-- Claim C4 counterexample: in an iteration whose select succeeded, a recv
returning an error (errno 9, EBADF, as a stale closed fd yields) is unwrapped
and the multiplexer thread panics — it does not log a warning and continue as
the claim states. -/
theorem c4_counterexample_recv_error_panics :
    mux_iteration (Except.ok PUnit.unit) [Except.ok ("x".toList), Except.error 9] =
      MuxIterOutcome.panicked ∧
    MuxIterOutcome.panicked ≠ MuxIterOutcome.continued true := by
  refine ⟨rfl, by decide⟩

/-- Claim C4 amended: only an error from select itself is logged at warn with
the loop continuing; an error from recv or read on any ready fd — however
many successful reads precede it — is unwrapped and panics the multiplexer
thread. -/
theorem c4_select_warns_recv_panics :
    (∀ (e : Nat) (recvs : List (Except Nat (List Char))),
      mux_iteration (Except.error e) recvs = MuxIterOutcome.continued true) ∧
    (∀ (pre : List (List Char)) (e : Nat) (post : List (Except Nat (List Char))),
      mux_iteration (Except.ok PUnit.unit)
        (pre.map Except.ok ++ Except.error e :: post) = MuxIterOutcome.panicked) := by
  constructor
  · intro e recvs
    rfl
  · intro pre e post
    exact unwrap_recvs_first_error pre e post

/-- Claim C5 counterexample: a running supervised service satisfying the
equivalence is stopped; stop clears the pid but leaves the
PidEntry::Service(id, _) entry in the pid table, so the equivalence fails
right after stop returns. -/
theorem c5_counterexample_stop_breaks_equivalence :
    pid_inv exampleRunningSup = true ∧ pid_inv (stop_op exampleRunningSup) = false := by
  refine ⟨by decide, by decide⟩

/-- Claim C5 amended: start establishes the equivalence whenever it succeeds,
and the reaper preserves it on every table with distinct keys and at most one
Service entry for the unit; stop alone breaks it, and the equivalence is
restored only when the reaper later removes the stale entry. -/
theorem c5_start_reap_preserve_equivalence :
    (∀ (st : SupState) (new_pid : Int) (st2 : SupState),
      start_op st new_pid = Except.ok st2 → pid_inv st2 = true) ∧
    (∀ (st : SupState) (p : Int),
      pid_inv st = true → nodupKeys st.table = true →
      serviceEntryCount st.id st.table ≤ 1 → pid_inv (reap_op st p) = true) :=
  ⟨fun st new_pid st2 h => start_op_establishes_pid_inv st new_pid st2 h,
   fun st p hinv hnd hcnt => reap_op_preserves_pid_inv st p hinv hnd hcnt⟩

theorem c5_witness :
    pid_inv exampleStartedSup = true ∧ pid_inv (reap_op exampleRunningSup 5) = true :=
  ⟨c5_start_reap_preserve_equivalence.1 exampleFreshSup 5 exampleStartedSup rfl,
   c5_start_reap_preserve_equivalence.2 exampleRunningSup 5 (by decide) (by decide)
     (by decide)⟩

/-- Claim C6: with a started_ids set given, activate_unit returns Ignored
whenever some after predecessor is missing from started_ids — without
consulting the activation result — and conversely any Started result implies
every after predecessor was in started_ids. -/
theorem c6_after_gate (u : Unit) (ids : List InternalId) (r : Except String PUnit.{1}) :
    ((∃ a ∈ u.install.after, a ∉ ids) →
      activate_unit u (some ids) r = Except.ok StartResult.ignored) ∧
    (∀ next, activate_unit u (some ids) r = Except.ok (StartResult.started next) →
      ∀ a ∈ u.install.after, a ∈ ids) := by
  have hun : activate_unit u (some ids) r =
      if u.install.after.foldl (fun acc elem => acc && ids.contains elem) true = true then
        (match r with
          | Except.ok _ => Except.ok (StartResult.started u.install.before)
          | Except.error e =>
            Except.error ("Error while starting unit " ++ u.conf.name ++ ": " ++ e))
      else Except.ok StartResult.ignored := rfl
  constructor
  · rintro ⟨a, ha, hna⟩
    have hfold :
        ¬ (u.install.after.foldl (fun acc elem => acc && ids.contains elem) true = true) := by
      intro hcon
      have := ((foldl_and_contains ids u.install.after true).mp hcon).2 a ha
      exact hna this
    rw [hun, if_neg hfold]
  · intro next h a ha
    rw [hun] at h
    by_cases hfold :
        u.install.after.foldl (fun acc elem => acc && ids.contains elem) true = true
    · exact ((foldl_and_contains ids u.install.after true).mp hfold).2 a ha
    · rw [if_neg hfold] at h
      exact absurd (Except.ok.inj h) (by simp)

theorem c6_witness :
    activate_unit exampleGatedUnit (some []) (Except.ok PUnit.unit) =
        Except.ok StartResult.ignored ∧
    ∀ a ∈ exampleGatedUnit.install.after, a ∈ [1] := by
  refine ⟨?_, ?_⟩
  · exact (c6_after_gate exampleGatedUnit [] (Except.ok PUnit.unit)).1
      ⟨1, by decide, by decide⟩
  · exact (c6_after_gate exampleGatedUnit [1] (Except.ok PUnit.unit)).2 [2] rfl

/-- Claim C7 counterexample: a child writing hello, newline, world in one
read and an exclamation mark plus newline in the next does not produce the
two claimed lines — the partial tail world is emitted at once with its own
newline instead of being joined with the later bytes. -/
theorem c7_counterexample_partial_not_joined :
    handle_std_out_reads "P" ["hello\nworld".toList, "!\n".toList] ≠
      ["[P] hello\n".toList, "[P] world!\n".toList] := by
  decide

/-- Claim C7 amended: each read is split on newline independently, empty
segments are dropped, and every remaining segment — a trailing partial line
included — is emitted immediately as its own prefixed line with a newline
appended; nothing is carried to the next read, so the example yields three
lines. -/
theorem c7_lines_emitted_per_read :
    handle_std_out_reads "P" ["hello\nworld".toList, "!\n".toList] =
      ["[P] hello\n".toList, "[P] world\n".toList, "[P] !\n".toList] := by
  decide

/-- Claim C8: feeding any non-empty sequence of chunks through the buffer —
append, then parse, for each chunk in turn — ends in exactly the state that
appending the whole byte stream and parsing once produces (messages are
consumed line by line in FIFO order along the way, so the ordered message
list agrees as well), and after every parse that returns the buffer holds no
newline — only the tail after the last processed newline. -/
theorem c8_chunked_parse_agrees (t : Service) (c : List Char) (cs : List (List Char)) :
    List.foldlM feed t (c :: cs) = feed t ((c :: cs).flatten) ∧
    (∀ (u u2 : Service) (d : List Char), feed u d = some u2 →
      u2.notifications_buffer.contains '\n' = false) :=
  ⟨feed_foldlM t c cs, fun u u2 d h => feed_no_newline u u2 d h⟩

theorem c8_witness :
    (List.foldlM feed exampleStartingService
        ["STATUS=a\nRE".toList, "ADY=1\n".toList] =
      feed exampleStartingService
        ((["STATUS=a\nRE".toList, "ADY=1\n".toList]).flatten)) ∧
    exampleParsedService.notifications_buffer.contains '\n' = false :=
  ⟨(c8_chunked_parse_agrees exampleStartingService ("STATUS=a\nRE".toList)
      ["ADY=1\n".toList]).1,
   (c8_chunked_parse_agrees exampleStartingService ("STATUS=a\nRE".toList)
      ["ADY=1\n".toList]).2 exampleStartingService exampleParsedService
     ("STATUS=a\nRE".toList) (by decide)⟩

/-- Claim C9: the claim (and the spec) say run_poststop must run the stoppost
commands whenever stoppost is non-empty; the code guards the early Ok return
on startpost.is_empty instead, so at the failing input — empty startpost,
stoppost containing one command — run_poststop returns Ok having run
nothing. -/
theorem c9_poststop_guard_typo :
    run_poststop_cmds examplePoststopService = [] ∧
    examplePoststopService.service_config.stoppost = ["/bin/cleanup"] := by
  refine ⟨rfl, rfl⟩

/-- Claim C10: the notify parser is not total — a processed line exactly
STATUS, with no equals sign and no value, indexes split[1] out of bounds and
panics the multiplexer thread (modelled by none), while a line with an
unrecognized key merely warns and leaves the service state unchanged. -/
theorem c10_bare_status_panics_unknown_key_warns (srvc : Service) :
    handle_notification_message ("STATUS".toList) srvc = none ∧
    handle_notification_message ("FOO".toList) srvc = some srvc := by
  refine ⟨rfl, rfl⟩

end Rustysd
